import Mathlib

/- Shallow embedding of the impact-radar static-analysis core: the
   caller-safety scanner (src/callerSafetyScanner.js), the blast-radius
   traversal (src/impactAnalysis.js), and the code-graph builder's node and
   metadata discipline (src/graphParser.js).  JavaScript numbers are modelled
   as exact rationals (all arithmetic in the source is on small decimal
   constants, far from any binary-float rounding boundary that could change a
   two-decimal rounding), strings as Lean strings, JS `Set`/`Map`/object as
   insertion-ordered lists and association lists. -/

namespace ImpactRadar

def exceptDecEq {ε α : Type} [DecidableEq ε] [DecidableEq α] :
    (a b : Except ε α) → Decidable (a = b)
  | .error e, .error f =>
    if h : e = f then isTrue (by rw [h]) else isFalse (fun hh => by cases hh; exact h rfl)
  | .error _, .ok _ => isFalse (fun h => by cases h)
  | .ok _, .error _ => isFalse (fun h => by cases h)
  | .ok a, .ok b =>
    if h : a = b then isTrue (by rw [h]) else isFalse (fun hh => by cases hh; exact h rfl)

instance {ε α : Type} [DecidableEq ε] [DecidableEq α] : DecidableEq (Except ε α) :=
  exceptDecEq

/-- JS truthiness fallback `x || d` for a possibly-absent string field:
both `undefined` and the empty string are falsy. -/
def jsOr (v : Option String) (d : String) : String :=
  match v with
  | some s => if s = "" then d else s
  | none => d

/-- Strip `pre` from the front of `l`, if it is a leading sequence of it. -/
def stripLeadChars : List Char → List Char → Option (List Char)
  | [], l => some l
  | _ :: _, [] => none
  | p :: ps, c :: cs => if p = c then stripLeadChars ps cs else none

/-- JS `String.prototype.split` for a non-empty separator, over character
lists: scan left to right, cut at each non-overlapping occurrence.  The
fuel argument makes the recursion structural; every step shortens the
scanned list by at least one character (`stripLeadChars_length_lt`), so with
fuel = initial length the zero-fuel case is unreachable. -/
def jsSplitAux (s0 : Char) (srest : List Char) : Nat → List Char → List Char → List (List Char)
  | _, [], cur => [cur.reverse]
  | 0, _ :: _, cur => [cur.reverse]
  | fuel + 1, c :: cs, cur =>
    match stripLeadChars (s0 :: srest) (c :: cs) with
    | some rest => cur.reverse :: jsSplitAux s0 srest fuel rest []
    | none => jsSplitAux s0 srest fuel cs (c :: cur)

/-- JS `String.prototype.split` (the separators used by the source are all
non-empty; an empty separator is never passed and maps to the identity). -/
def jsSplit (s sep : String) : List String :=
  match sep.data with
  | [] => [s]
  | s0 :: srest => (jsSplitAux s0 srest s.data.length s.data []).map String.mk

/-- JS `String.prototype.includes` for a non-empty needle: the needle occurs
iff splitting on it yields more than one part. -/
def jsIncludes (s sub : String) : Bool :=
  (jsSplit s sub).length > 1

/-- JS `String.prototype.endsWith`. -/
def jsEndsWith (s suffix : String) : Bool :=
  (stripLeadChars suffix.data.reverse s.data.reverse).isSome

/-- Drop the last `n` characters. -/
def jsDropRight (s : String) (n : Nat) : String :=
  String.mk (s.data.take (s.data.length - n))

/-- JS `String.prototype.toUpperCase` (ASCII, which is all the source feeds
it: function names built from identifier characters). -/
def jsToUpper (s : String) : String :=
  String.mk (s.data.map Char.toUpper)

/-- JS `Array.prototype.join`. -/
def joinWith (sep : String) : List String → String
  | [] => ""
  | [x] => x
  | x :: y :: xs => x ++ sep ++ joinWith sep (y :: xs)

/-- JS `Set.prototype.add`: append if absent, keeping insertion order. -/
def insertUnique (l : List String) (x : String) : List String :=
  if x ∈ l then l else l ++ [x]

/- ### Caller safety scanner (src/callerSafetyScanner.js)

`scanCallerSafety` walks every CallExpression whose callee simple name
matches the target, derives six boolean flags from the surrounding tree, and
feeds them to `calculateSafetyProbabilities`.  The Babel AST surroundings of
one matched call site are embedded as a `CallSite`: the discriminations the
source makes on the parent (optional member/call, await, variable
declarator binding) and the list of ancestor nodes that the `while
(currentPath)` loop of lines 209-261 visits, innermost first. -/

/-- The six boolean flags of a Safety Record. -/
structure SafetyFlags where
  hasTryCatch : Bool
  hasNullCheck : Bool
  isDestructuredImmediately : Bool
  assumedExists : Bool
  isAsyncCall : Bool
  isOptionalChaining : Bool
deriving DecidableEq, Repr

/-- Expressions as the scanner's guard detection distinguishes them: the
original CallExpression node and the AwaitExpression wrapping it are compared
by object identity in the source, so each is one identified constructor;
identifiers are compared by name; a null literal; everything else opaque. -/
inductive Expr where
  | callTarget
  | awaitTarget
  | ident (name : String)
  | nullLit
  | other
deriving DecidableEq, Repr

/-- The test of an enclosing if-statement or ternary, as lines 233-256
discriminate it: a binary expression (any operator — the source never checks
it), a `!` unary, a `&&` logical (other logical operators fall through to the
bare-expression case as an opaque expression), or a bare expression. -/
inductive TestExpr where
  | binary (left right : Expr)
  | unaryNot (arg : Expr)
  | logicalAnd (left : Expr)
  | expr (e : Expr)
deriving DecidableEq, Repr

/-- One ancestor node of the call site, as discriminated by the upward walk:
try statements, the four function-like forms with their `async` flag,
if/ternary nodes with their test, and everything else (block statements,
expression statements, the program node, declarators, … — none of which the
walk inspects). -/
inductive Ancestor where
  | tryStatement
  | functionDeclaration (async : Bool)
  | arrowFunctionExpression (async : Bool)
  | functionExpression (async : Bool)
  | objectMethod (async : Bool)
  | ifStatement (test : TestExpr)
  | conditionalExpression (test : TestExpr)
  | otherNode
deriving DecidableEq, Repr

def isFunctionLike : Ancestor → Bool
  | .functionDeclaration _ => true
  | .arrowFunctionExpression _ => true
  | .functionExpression _ => true
  | .objectMethod _ => true
  | _ => false

def ancestorAsync : Ancestor → Bool
  | .functionDeclaration b => b
  | .arrowFunctionExpression b => b
  | .functionExpression b => b
  | .objectMethod b => b
  | _ => false

/-- The test expression of an ancestor that is an if-statement or ternary. -/
def testOf : Ancestor → Option TestExpr
  | .ifStatement t => some t
  | .conditionalExpression t => some t
  | _ => none

/-- Context for `isTargetExpression` (lines 224-230): the identifier the
result was bound to, if any, and whether the call was wrapped in an await
(in which case `expressionToTrack` is that AwaitExpression). -/
structure TrackCtx where
  resultIdentifierName : Option String
  awaited : Bool
deriving DecidableEq, Repr

/-- Lines 224-230: the expression is the bound result identifier, the
original CallExpression itself, or the tracked AwaitExpression. -/
def isTargetExpression (ctx : TrackCtx) (e : Expr) : Bool :=
  (match ctx.resultIdentifierName with
   | some n => e == Expr.ident n
   | none => false)
  || e == Expr.callTarget
  || (ctx.awaited && e == Expr.awaitTarget)

/-- A null literal or the identifier `undefined` (lines 238, 240). -/
def isNullOrUndefinedLit : Expr → Bool
  | Expr.nullLit => true
  | Expr.ident n => n == "undefined"
  | _ => false

/-- Lines 233-256: does this if/ternary test count as a null check? -/
def testSetsNullCheck (ctx : TrackCtx) : TestExpr → Bool
  | .binary l r =>
      (isNullOrUndefinedLit r && isTargetExpression ctx l)
      || (isNullOrUndefinedLit l && isTargetExpression ctx r)
  | .unaryNot arg => isTargetExpression ctx arg
  | .logicalAnd l => isTargetExpression ctx l
  | .expr e => isTargetExpression ctx e

/-- The mutable state of the upward walk of lines 209-261. -/
structure WalkState where
  hasTryCatch : Bool
  isAsyncCall : Bool
  hasNullCheck : Bool
deriving DecidableEq, Repr

/-- One iteration of the `while (currentPath)` loop: record try statements,
async function-like ancestors, and (only while no null check has been found)
a guarding if/ternary test. -/
def walkStep (ctx : TrackCtx) (st : WalkState) (a : Ancestor) : WalkState :=
  let st1 := if a == Ancestor.tryStatement then { st with hasTryCatch := true } else st
  let st2 :=
    if isFunctionLike a && ancestorAsync a then { st1 with isAsyncCall := true } else st1
  if !st2.hasNullCheck then
    match testOf a with
    | some test =>
        if testSetsNullCheck ctx test then { st2 with hasNullCheck := true } else st2
    | none => st2
  else st2

/-- How the result of the call is bound at its (grand)parent declarator:
no declarator, a plain identifier, or an object/array destructuring
pattern (lines 183-200). -/
inductive BindingKind where
  | noBinding
  | identBinding (name : String)
  | patternBinding
deriving DecidableEq, Repr

/-- One matched call site: whether the immediate parent is an optional
member/call expression, whether the call is the argument of an await,
how its result is bound, and the ancestor list visited by the upward walk
(which starts at the parent, or at the grandparent when awaited —
lines 204-207; parents that are declarators or optional members appear in
the list as `otherNode` since the walk never discriminates them). -/
structure CallSite where
  parentIsOptionalChaining : Bool
  awaited : Bool
  binding : BindingKind
  ancestors : List Ancestor
deriving DecidableEq, Repr

/-- Flag derivation for one call site (lines 161-266 of the source). -/
def analyzeCallSite (site : CallSite) : SafetyFlags :=
  let isOptionalChaining := site.parentIsOptionalChaining
  let hasNullCheck0 := site.parentIsOptionalChaining
  let resultIdentifierName :=
    match site.binding with
    | .identBinding n => some n
    | _ => none
  let isDestructuredImmediately := site.binding == BindingKind.patternBinding
  let ctx : TrackCtx := ⟨resultIdentifierName, site.awaited⟩
  let st := site.ancestors.foldl (walkStep ctx) ⟨false, false, hasNullCheck0⟩
  let assumedExists :=
    !st.hasNullCheck && !st.hasTryCatch && !isDestructuredImmediately && !isOptionalChaining
  { hasTryCatch := st.hasTryCatch
    hasNullCheck := st.hasNullCheck
    isDestructuredImmediately := isDestructuredImmediately
    assumedExists := assumedExists
    isAsyncCall := st.isAsyncCall
    isOptionalChaining := isOptionalChaining }

/-- The async flag of the first (innermost) enclosing function-like
construct, if any — the spec's reading of the is-async-call rule, used to
compare against what `analyzeCallSite` actually computes. -/
def firstEnclosingAsync (l : List Ancestor) : Option Bool :=
  (l.find? isFunctionLike).map ancestorAsync

/- ### Probability derivation (calculateSafetyProbabilities, lines 37-113) -/

/-- `Math.max` on two rationals. -/
def jsMax (a b : ℚ) : ℚ := if a ≤ b then b else a

/-- `Math.min` on two rationals. -/
def jsMin (a b : ℚ) : ℚ := if a ≤ b then a else b

/-- `parseFloat(x.toFixed(2))`: round to two decimal places (every value the
rule engine can produce is a nonnegative multiple of 0.05, so round-to-nearest
is exact here and agrees with the binary-float `toFixed`). -/
def round2 (q : ℚ) : ℚ := ((q * 100 + 1/2).floor : ℚ) / 100

structure SafetyProbabilities where
  unsafeDereferenceLikelihood : ℚ
  unhandledErrorProbability : ℚ
  unsafeDereferenceBreakdown : List String
  unhandledErrorBreakdown : List String
deriving DecidableEq, Repr

/-- The deterministic rule engine of lines 37-113, reproduced step by step. -/
def calculateSafetyProbabilities (f : SafetyFlags) : SafetyProbabilities :=
  let (udl, udlB) :=
    if !f.hasNullCheck && !f.isOptionalChaining then
      ((0.7 : ℚ), ["Base: No explicit null check or optional chaining found (+0.7)"])
    else
      ((0.1 : ℚ), ["Base: Null check or optional chaining found (+0.1)"])
  let (udl, udlB) :=
    if f.isDestructuredImmediately && !f.hasNullCheck && !f.isOptionalChaining then
      (udl + 0.2, udlB ++ ["Condition: Destructuring without null guard (+0.2)"])
    else (udl, udlB)
  let (udl, udlB) :=
    if f.assumedExists && !f.hasNullCheck && !f.isOptionalChaining then
      (udl + 0.15, udlB ++ ["Condition: Assumed existence without checks (+0.15)"])
    else (udl, udlB)
  let (udl, udlB) :=
    if f.hasNullCheck then
      (jsMax 0 (udl - 0.5), udlB ++ ["Mitigation: Explicit null check (-0.5)"])
    else (udl, udlB)
  let (udl, udlB) :=
    if f.isOptionalChaining then
      (jsMax 0 (udl - 0.4), udlB ++ ["Mitigation: Optional chaining (-0.4)"])
    else (udl, udlB)
  let (uep, uepB) :=
    if !f.hasTryCatch then
      ((0.6 : ℚ), ["Base: No try/catch block found (+0.6)"])
    else
      ((0.1 : ℚ), ["Base: Try/catch block found (+0.1)"])
  let (uep, uepB) :=
    if f.isAsyncCall && !f.hasTryCatch then
      (uep + 0.2, uepB ++ ["Condition: Async call without try/catch (+0.2)"])
    else (uep, uepB)
  let udl := jsMax 0 (jsMin 1 udl)
  let uep := jsMax 0 (jsMin 1 uep)
  let (udl, uep, udlB, uepB) :=
    if f.hasNullCheck && !f.isDestructuredImmediately && !f.assumedExists
        && !f.isAsyncCall && f.hasTryCatch && f.isOptionalChaining then
      ((0 : ℚ), (0 : ℚ),
       udlB ++ ["Overall: All safety mechanisms present, minimal risk (0.00)"],
       uepB ++ ["Overall: All safety mechanisms present, minimal risk (0.00)"])
    else if f.hasNullCheck && !f.isDestructuredImmediately && !f.assumedExists
        && !f.isAsyncCall && f.hasTryCatch then
      (jsMin udl 0.01, jsMin uep 0.01,
       if udlB.any (fun b => jsIncludes b "Minimal residual risk") then udlB
       else udlB ++ ["Overall: All major safety mechanisms present, minimal residual risk (0.01)"],
       if uepB.any (fun b => jsIncludes b "Minimal residual risk") then uepB
       else uepB ++ ["Overall: All major safety mechanisms present, minimal residual risk (0.01)"])
    else (udl, uep, udlB, uepB)
  { unsafeDereferenceLikelihood := round2 udl
    unhandledErrorProbability := round2 uep
    unsafeDereferenceBreakdown := udlB
    unhandledErrorBreakdown := uepB }

/- ### Blast radius traversal (src/impactAnalysis.js)

`calculateBlastRadius` builds a reverse adjacency map over non-structural
edges (keyed by each edge's `to` and, when it contains `::`, also by its bare
trailing name), then runs a breadth-first traversal from the target.  JS
`Map`/`Set` become insertion-ordered association lists / duplicate-free
lists; the `while` loop becomes fuel-indexed recursion, with fuel
`edges.length + 1`: every queue push is paired with a fresh addition to the
visited set, and only `from`-endpoints of edges (plus the target) are ever
added, so at most `edges.length + 1` dequeues can happen and the fuel is
never exhausted before the queue empties. -/

/-- A graph node as the traversal reads it: `type` and `zone` are always
present on nodes the builder creates; `file` and `name` are absent on module
nodes (JS `undefined`, read through `?.` and `||`). -/
structure Node where
  type : String
  zone : String
  file : Option String
  name : Option String
deriving DecidableEq, Repr

/-- An edge; `efrom`/`eto` embed the source's `from`/`to` fields (`from` is a
reserved word in Lean).  `kind` is absent on structural edges. -/
structure Edge where
  efrom : String
  eto : String
  type : String
  kind : Option String
deriving DecidableEq, Repr

structure Graph where
  nodes : List (String × Node)
  edges : List Edge
deriving DecidableEq, Repr

/-- `calleeId.includes('::') ? calleeId.split('::')[1] : calleeId`
(lines 28 and 46): the second part of the split, i.e. the text between the
first and the second occurrence of `::`. -/
def shortOf (s : String) : String :=
  match jsSplit s "::" with
  | _ :: second :: _ => second
  | _ => s

/-- The reverse adjacency map: key, then dependents in insertion order. -/
abbrev Adj := List (String × List String)

def adjGet (adj : Adj) (k : String) : Option (List String) :=
  adj.lookup k

/-- `if (!adj.has(k)) adj.set(k, new Set()); adj.get(k).add(v)`. -/
def adjAdd : Adj → String → String → Adj
  | [], k, v => [(k, [v])]
  | (k', l) :: rest, k, v =>
    if k' = k then (k', insertUnique l v) :: rest
    else (k', l) :: adjAdd rest k v

/-- One iteration of the `graph.edges.forEach` of lines 10-34: skip
structural edges, register the caller under the full callee id and, when the
callee id contains `::`, under its bare trailing name as well.  (The
null/undefined `calleeId` guard of lines 18-21 cannot fire here: edge
endpoints are total strings in the embedding.) -/
def buildAdjStep (adj : Adj) (e : Edge) : Adj :=
  if e.type = "structural" then adj
  else
    let adj := adjAdd adj e.eto e.efrom
    let shortName := shortOf e.eto
    if shortName ≠ e.eto then adjAdd adj shortName e.efrom else adj

def buildAdj (edges : List Edge) : Adj :=
  edges.foldl buildAdjStep []

/-- The dependents set of lines 41-50: the union, in JS `Set` insertion
order, of the entries under the node's full id and under its bare name. -/
def dependentsOf (adj : Adj) (id : String) : List String :=
  let deps := ((adjGet adj id).getD []).foldl insertUnique []
  let shortId := shortOf id
  if shortId ≠ id then ((adjGet adj shortId).getD []).foldl insertUnique deps else deps

/-- One element of the BFS queue. -/
structure QEntry where
  id : String
  depth : Nat
  chain : List String
deriving DecidableEq, Repr

/-- One Impact record (lines 58-66). -/
structure Impact where
  id : String
  type : String
  zone : String
  depth : Nat
  chain : String
  file : String
  name : String
deriving DecidableEq, Repr

/-- The mutable state of the `while` loop: visited set, impact list, queue. -/
structure BfsState where
  visited : List String
  impacts : List Impact
  queue : List QEntry
deriving DecidableEq, Repr

/-- The body of the `for (const depId of dependents)` loop (lines 52-71). -/
def stepDep (g : Graph) (qe : QEntry) (st : BfsState) (depId : String) : BfsState :=
  if depId ∈ st.visited then st
  else
    let node := g.nodes.lookup depId
    let newChain := qe.chain ++ [depId]
    { visited := st.visited ++ [depId]
      impacts := st.impacts ++ [{
        id := depId
        type := jsOr (node.map Node.type) "unresolved"
        zone := jsOr (node.map Node.zone) "External/Unresolved"
        depth := qe.depth + 1
        chain := joinWith " ➔ " newChain
        file := jsOr (node.bind Node.file) "N/A"
        name := jsOr (node.bind Node.name) depId }]
      queue := st.queue ++ [⟨depId, qe.depth + 1, newChain⟩] }

/-- The `while (queue.length > 0)` loop of lines 38-72. -/
def bfsAux (g : Graph) (adj : Adj) : Nat → BfsState → List Impact
  | 0, st => st.impacts
  | fuel + 1, st =>
    match st.queue with
    | [] => st.impacts
    | qe :: rest =>
      bfsAux g adj fuel
        ((dependentsOf adj qe.id).foldl (stepDep g qe) { st with queue := rest })

/-- `calculateBlastRadius(graph, targetId)` (lines 1-74). -/
def calculateBlastRadius (g : Graph) (targetId : String) : List Impact :=
  let adj := buildAdj g.edges
  bfsAux g adj (g.edges.length + 1)
    { visited := [targetId]
      impacts := []
      queue := [⟨targetId, 0, [targetId]⟩] }

/- ### Code graph builder (src/graphParser.js)

The builder walks the file system and a Babel syntax tree — both external to
the repository.  The embedding makes them explicit inputs: a project is the
list of processed files in processing order, each file carrying its
root-relative path, its architectural zone (the value of
`getArchitecturalZone`, a pure path classification not under proof here),
and its parse outcome — a thrown parse error, or the ordered import-like and
function-like declarations Babel would report.  Route extraction
(`getRouteInfo`) and node-id assignment are embedded in full, since node
identity claims depend on them. -/

/-- `'/'+(server|page|layout)\.(js|ts|jsx|tsx|svelte)` — the SvelteKit route
marker suffixes stripped by `getRouteInfo`'s first branch (line 116).  The
alternatives are mutually exclusive as suffixes, so a suffix-membership test
is equivalent to the anchored regex replace. -/
def svelteMarkerSuffixes : List String :=
  ["/+server.js", "/+server.ts", "/+server.jsx", "/+server.tsx", "/+server.svelte",
   "/+page.js", "/+page.ts", "/+page.jsx", "/+page.tsx", "/+page.svelte",
   "/+layout.js", "/+layout.ts", "/+layout.jsx", "/+layout.tsx", "/+layout.svelte"]

/-- `\/route\.(js|ts|jsx|tsx)$` (line 121). -/
def routeMarkerSuffixes : List String :=
  ["/route.js", "/route.ts", "/route.jsx", "/route.tsx"]

/-- `\.(js|ts|jsx|tsx)$` (lines 126 and 136). -/
def extSuffixes : List String :=
  [".js", ".ts", ".jsx", ".tsx"]

/-- `\/(page|layout|loading|error)\.(js|ts|jsx|tsx)$` (line 131). -/
def pageMarkerSuffixes : List String :=
  ["/page.js", "/page.ts", "/page.jsx", "/page.tsx",
   "/layout.js", "/layout.ts", "/layout.jsx", "/layout.tsx",
   "/loading.js", "/loading.ts", "/loading.jsx", "/loading.tsx",
   "/error.js", "/error.ts", "/error.jsx", "/error.tsx"]

/-- An end-anchored `String.replace(regex, '')` whose alternatives are
mutually exclusive suffixes. -/
def stripSuffixOneOf (s : String) (suffixes : List String) : String :=
  match suffixes.find? (fun suf => jsEndsWith s suf) with
  | some suf => jsDropRight s suf.data.length
  | none => s

/-- `String.replace(trailing-slash-regex, '')`. -/
def stripTrailingSlash (s : String) : String :=
  if jsEndsWith s "/" then jsDropRight s 1 else s

/-- `s.split(sep)[1]`: `none` models JS `undefined` (fewer than two parts),
on which the source's subsequent `.replace` call would throw. -/
def jsSplitSecond (s sep : String) : Option String :=
  (jsSplit s sep).get? 1

/-- `getRouteInfo` (lines 110-140) on the root-relative path.  `Except.error`
models the `TypeError` thrown when a branch's `includes` guard passes but the
split has no second part (possible because the guards test a prefix without
the trailing slash); that exception is caught by `processFile`'s per-file
handler.  The source's `|| '/'`/`|| '/api/'` fallbacks are dead code — the
string always starts with the prepended `'/'` and is therefore truthy. -/
def getRouteInfo (relPath : String) : Except Unit (Option String) :=
  if jsIncludes relPath "src/routes" then
    match jsSplitSecond relPath "src/routes/" with
    | some parts =>
        Except.ok (some ("/" ++ stripTrailingSlash (stripSuffixOneOf parts svelteMarkerSuffixes)))
    | none => Except.error ()
  else if jsIncludes relPath "app/api" then
    match jsSplitSecond relPath "app/api/" with
    | some parts =>
        Except.ok (some ("/" ++ stripTrailingSlash (stripSuffixOneOf parts routeMarkerSuffixes)))
    | none => Except.error ()
  else if jsIncludes relPath "pages/api" then
    match jsSplitSecond relPath "pages/api/" with
    | some parts =>
        Except.ok (some ("/" ++ stripTrailingSlash (stripSuffixOneOf parts extSuffixes)))
    | none => Except.error ()
  else if jsIncludes relPath "app" then
    match jsSplitSecond relPath "app/" with
    | some parts =>
        Except.ok (some ("/" ++ stripTrailingSlash (stripSuffixOneOf parts pageMarkerSuffixes)))
    | none => Except.error ()
  else if jsIncludes relPath "pages" then
    match jsSplitSecond relPath "pages/" with
    | some parts =>
        Except.ok (some ("/" ++ stripTrailingSlash (stripSuffixOneOf parts extSuffixes)))
    | none => Except.error ()
  else Except.ok none

def httpVerbs : List String :=
  ["GET", "POST", "PUT", "DELETE", "PATCH", "HEAD", "OPTIONS"]

/-- The plain Function node id of line 324: `relPath::name`. -/
def funcNodeId (relPath name : String) : String :=
  relPath ++ "::" ++ name

/-- Node identity assignment for a function-like declaration whose resolved
name is `name` (lines 305-351): id, node `type`, and stored display name.
`none` when the declaration is dropped (empty name, which the source treats
as falsy).  A function is an API node iff its name, uppercased, is an HTTP
verb and the file has a route. -/
def nodeInfoFor (relPath name : String) : Except Unit (Option (String × String × String)) := do
  let route ← getRouteInfo relPath
  match route with
  | some r =>
      if (name != "") && httpVerbs.contains (jsToUpper name) then
        pure (some (jsToUpper name ++ " " ++ r, "api", jsToUpper name))
      else if name != "" then
        pure (some (funcNodeId relPath name, "function", name))
      else pure none
  | none =>
      if name != "" then pure (some (funcNodeId relPath name, "function", name))
      else pure none

/-- Which of the three import-like visitors fired (ImportDeclaration,
ExportNamedDeclaration with a source, ExportAllDeclaration): they differ
only in the `kind` strings of the edges they emit. -/
inductive ImportKind where
  | importK
  | reExportK
  | barrelK
deriving DecidableEq, Repr

def importKindStr : ImportKind → String
  | .importK => "import"
  | .reExportK => "re_export"
  | .barrelK => "barrel_export"

def importKindExternalStr : ImportKind → String
  | .importK => "import_external"
  | .reExportK => "re_export_external"
  | .barrelK => "barrel_export_external"

/-- The resolution outcome of one import-like declaration:
`resolvedRel r` — `resolveImportPath` found a project file with relative
path `r` (counter and edge); `resolvedNoRel` — a path was found but is
missing from the relative-path map (counter attempt only, lines 225-234);
`external spec` — unresolved, an `_external` edge to the raw specifier. -/
inductive ImportRes where
  | resolvedRel (rel : String)
  | resolvedNoRel
  | external (spec : String)
deriving DecidableEq, Repr

/-- One Babel declaration the builder's visitors react to.  For
`funcDecl`, `name` is the resolved name after the naming priority chain of
lines 288-296 and 335-350 (`none` when no name could be resolved and the
declaration is dropped), and `calls` the callee simple names of the call
expressions inside the body (line 355-371), in order. -/
inductive Decl where
  | importLike (kind : ImportKind) (res : ImportRes)
  | funcDecl (name : Option String) (calls : List String)
deriving DecidableEq, Repr

/-- The metadata counters the claims speak about (the depth/indirection
post-pass of lines 385-431 only reads the finished edge list and touches
none of these four). -/
structure Metadata where
  unresolved_files : Nat
  total_files : Nat
  total_imports : Nat
  resolved_imports : Nat
deriving DecidableEq, Repr

structure GraphModel where
  nodes : List (String × Node)
  edges : List Edge
  metadata : Metadata
deriving DecidableEq, Repr

/-- JS object property assignment `nodes[k] = n`: overwrite or append. -/
def nodesInsert : List (String × Node) → String → Node → List (String × Node)
  | [], k, n => [(k, n)]
  | (k', n') :: rest, k, n =>
    if k' = k then (k, n) :: rest else (k', n') :: nodesInsert rest k n

/-- One file, as the builder sees it: root-relative path, architectural
zone, and parse outcome (`Except.error` = the Babel parse threw; caught at
line 374). -/
structure FileModel where
  relPath : String
  zone : String
  outcome : Except Unit (List Decl)
deriving Repr

/-- Process the declarations of one successfully parsed file; the returned
flag records whether a visitor threw mid-traversal (`getRouteInfo`'s split
failure), which aborts the rest of the file but keeps everything already
pushed — the per-file catch then counts the file unresolved. -/
def processDecls (relPath zone : String) : List Decl → GraphModel → GraphModel × Bool
  | [], g => (g, false)
  | .importLike kind res :: rest, g =>
    let g := { g with metadata := { g.metadata with
                 total_imports := g.metadata.total_imports + 1 } }
    let g :=
      match res with
      | .resolvedRel rel =>
        { g with
          metadata := { g.metadata with resolved_imports := g.metadata.resolved_imports + 1 }
          edges := g.edges ++ [⟨relPath, rel, "dependency", some (importKindStr kind)⟩] }
      | .resolvedNoRel => g
      | .external spec =>
        { g with edges := g.edges ++ [⟨relPath, spec, "dependency", some (importKindExternalStr kind)⟩] }
    processDecls relPath zone rest g
  | .funcDecl none _ :: rest, g => processDecls relPath zone rest g
  | .funcDecl (some nm) calls :: rest, g =>
    match nodeInfoFor relPath nm with
    | .error _ => (g, true)
    | .ok none => processDecls relPath zone rest g
    | .ok (some (nodeId, ntype, nname)) =>
      let g := { g with nodes := nodesInsert g.nodes nodeId (⟨ntype, zone, some relPath, some nname⟩ : Node) }
      let g := { g with edges := g.edges ++ [(⟨relPath, nodeId, "structural", none⟩ : Edge)] }
      let g := { g with edges :=
                   g.edges ++ calls.map (fun c => (⟨nodeId, c, "dependency", some "call"⟩ : Edge)) }
      processDecls relPath zone rest g

/-- `processFile` (lines 189-378): count the file, register its Module node
(before the `try`, so also for files that fail to parse), then process its
declarations; any throw is caught and counted as one unresolved file. -/
def processFileModel (g : GraphModel) (f : FileModel) : GraphModel :=
  let g := { g with metadata := { g.metadata with total_files := g.metadata.total_files + 1 } }
  let g := { g with nodes := nodesInsert g.nodes f.relPath ⟨"module", f.zone, none, none⟩ }
  match f.outcome with
  | .error _ =>
    { g with metadata := { g.metadata with unresolved_files := g.metadata.unresolved_files + 1 } }
  | .ok decls =>
    match processDecls f.relPath f.zone decls g with
    | (g', false) => g'
    | (g', true) =>
      { g' with metadata := { g'.metadata with unresolved_files := g'.metadata.unresolved_files + 1 } }

def emptyGraphModel : GraphModel :=
  { nodes := [], edges := [], metadata := ⟨0, 0, 0, 0⟩ }

/-- `parseToGraph` (lines 149-433) over the processed-file sequence (the
`FULL`-mode recursion only changes which files appear in the sequence and in
what order, which the model takes as given). -/
def parseToGraphModel (files : List FileModel) : GraphModel :=
  files.foldl processFileModel emptyGraphModel

/-- Does processing this file end in the per-file catch? -/
def declsThrow (relPath : String) : List Decl → Bool
  | [] => false
  | .importLike _ _ :: rest => declsThrow relPath rest
  | .funcDecl none _ :: rest => declsThrow relPath rest
  | .funcDecl (some nm) _ :: rest =>
    match nodeInfoFor relPath nm with
    | .error _ => true
    | .ok _ => declsThrow relPath rest

def fileThrows (f : FileModel) : Bool :=
  match f.outcome with
  | .error _ => true
  | .ok decls => declsThrow f.relPath decls

/-- The number of Module nodes of a graph. -/
def countModules (nodes : List (String × Node)) : Nat :=
  (nodes.filter (fun p => p.2.type = "module")).length

/-- Keys of non-module nodes always contain a `:` (Function ids embed `::`)
or a space (API ids embed `VERB route`); module keys are file paths. -/
def hasSepChar (s : String) : Prop :=
  ':' ∈ s.data ∨ ' ' ∈ s.data

instance (s : String) : Decidable (hasSepChar s) := by
  unfold hasSepChar; infer_instance

/-- The keys of the Module nodes of a node map, in order. -/
def moduleKeys (nodes : List (String × Node)) : List String :=
  (nodes.filter (fun p => p.2.type = "module")).map Prod.fst

/-- Node-map key discipline: an entry is a Module node exactly when its key
is free of the `:` and space characters that Function and API identifiers
embed. -/
def nodesWellKeyed (nodes : List (String × Node)) : Prop :=
  ∀ p ∈ nodes, (p.2.type = "module" ↔ ¬ hasSepChar p.1)

/-- The loop invariant of the blast-radius traversal, relative to the
target: impact ids are duplicate-free, recorded in the visited set, the
target is visited but never recorded, and every recorded depth is
positive. -/
def BfsInv (t : String) (st : BfsState) : Prop :=
  (st.impacts.map Impact.id).Nodup ∧
  (∀ r ∈ st.impacts, r.id ∈ st.visited) ∧
  t ∈ st.visited ∧
  t ∉ st.impacts.map Impact.id ∧
  ∀ r ∈ st.impacts, 1 ≤ r.depth

/- ### Concrete inputs used by the claim theorems and witnesses -/

/-- The Code Graph the builder produces for the two-file project of the
end-to-end scenario: `a.js` declares `foo` (Module and Function node, one
structural edge); `b.js` imports `./a.js` (resolved dependency edge), and
declares `bar` (Module and Function node, structural edge) whose body calls
`foo()` (call-kind dependency edge to the bare callee name).  Both files sit
at the project root, so `getArchitecturalZone` yields "Unknown Zone" and
`getRouteInfo` yields no route. -/
def c1graph : Graph :=
  { nodes := [
      ("a.js", ⟨"module", "Unknown Zone", none, none⟩),
      ("a.js::foo", ⟨"function", "Unknown Zone", some "a.js", some "foo"⟩),
      ("b.js", ⟨"module", "Unknown Zone", none, none⟩),
      ("b.js::bar", ⟨"function", "Unknown Zone", some "b.js", some "bar"⟩)]
    edges := [
      ⟨"a.js", "a.js::foo", "structural", none⟩,
      ⟨"b.js", "a.js", "dependency", some "import"⟩,
      ⟨"b.js", "b.js::bar", "structural", none⟩,
      ⟨"b.js::bar", "foo", "dependency", some "call"⟩] }

/-- The call site `foo();` inside `function bar() { ... }` in `b.js`: plain
expression statement (no optional chaining, no await, no binding); the walk
from the parent sees ExpressionStatement, BlockStatement, the non-async
FunctionDeclaration `bar`, and Program. -/
def c1site : CallSite :=
  { parentIsOptionalChaining := false
    awaited := false
    binding := BindingKind.noBinding
    ancestors := [Ancestor.otherNode, Ancestor.otherNode,
                  Ancestor.functionDeclaration false, Ancestor.otherNode] }

/-- Ten files: one whose parse throws, nine that parse to a single plain
function declaration each. -/
def c2files : List FileModel :=
  ⟨"bad.js", "Unknown Zone", Except.error ()⟩ ::
    (List.range 9).map (fun i =>
      ⟨"f" ++ toString i ++ ".js", "Unknown Zone",
       Except.ok [Decl.funcDecl (some "work") []]⟩)

/-- A minimal graph containing the dual-key-resolution edge and the target
node, used to instantiate the C3 theorem. -/
def c3graph : Graph :=
  { nodes := [("file1.ext::foo", ⟨"function", "Unknown Zone", some "file1.ext", some "foo"⟩)]
    edges := [⟨"file2.ext::caller", "foo", "dependency", some "call"⟩] }

/-- A graph whose only edges are structural. -/
def c6graph : Graph :=
  { nodes := [
      ("m.js", ⟨"module", "Unknown Zone", none, none⟩),
      ("m.js::f", ⟨"function", "Unknown Zone", some "m.js", some "f"⟩)]
    edges := [⟨"m.js", "m.js::f", "structural", none⟩] }

/-- A call site whose immediate parent is an optional member expression:
`target()?.prop` at top level. -/
def c7site : CallSite :=
  { parentIsOptionalChaining := true
    awaited := false
    binding := BindingKind.noBinding
    ancestors := [Ancestor.otherNode, Ancestor.otherNode] }

/-- `async function outer() { function inner() { target(); } }`: the walk
from the call's parent sees ExpressionStatement, BlockStatement, the
non-async `inner`, BlockStatement, the async `outer`, and Program. -/
def c8site : CallSite :=
  { parentIsOptionalChaining := false
    awaited := false
    binding := BindingKind.noBinding
    ancestors := [Ancestor.otherNode, Ancestor.otherNode,
                  Ancestor.functionDeclaration false, Ancestor.otherNode,
                  Ancestor.functionDeclaration true, Ancestor.otherNode] }

/- ## Supporting lemmas -/

theorem stripLeadChars_length_le :
    ∀ (pre l rest : List Char), stripLeadChars pre l = some rest → rest.length ≤ l.length
  | [], _, _, h => by simp only [stripLeadChars, Option.some.injEq] at h; simp [← h]
  | _ :: _, [], _, h => by simp [stripLeadChars] at h
  | p :: ps, c :: cs, rest, h => by
      by_cases hpc : p = c
      · simp only [stripLeadChars, if_pos hpc] at h
        exact (stripLeadChars_length_le ps cs rest h).trans (Nat.le_succ _)
      · simp [stripLeadChars, hpc] at h

/-- Every `jsSplitAux` step shortens the scanned list, so the fuel of
`jsSplit` (the initial length) is never exhausted. -/
theorem stripLeadChars_length_lt (p : Char) (ps l rest : List Char)
    (h : stripLeadChars (p :: ps) l = some rest) : rest.length < l.length := by
  match l with
  | [] => simp [stripLeadChars] at h
  | c :: cs =>
    by_cases hpc : p = c
    · simp only [stripLeadChars, if_pos hpc] at h
      exact Nat.lt_succ_of_le (stripLeadChars_length_le ps cs rest h)
    · simp [stripLeadChars, hpc] at h

theorem walkStep_hasNullCheck_mono (ctx : TrackCtx) (st : WalkState) (a : Ancestor)
    (h : st.hasNullCheck = true) : (walkStep ctx st a).hasNullCheck = true := by
  unfold walkStep
  cases htest : testOf a <;>
    by_cases h1 : a == Ancestor.tryStatement <;>
      by_cases h2 : isFunctionLike a && ancestorAsync a <;>
        simp [h1, h2, htest, h]

theorem foldl_walkStep_hasNullCheck_mono (ctx : TrackCtx) (l : List Ancestor) :
    ∀ st : WalkState, st.hasNullCheck = true →
      (l.foldl (walkStep ctx) st).hasNullCheck = true := by
  induction l with
  | nil => intro st h; simpa using h
  | cons a rest ih => intro st h; exact ih _ (walkStep_hasNullCheck_mono ctx st a h)

theorem walkStep_isAsyncCall (ctx : TrackCtx) (st : WalkState) (a : Ancestor) :
    (walkStep ctx st a).isAsyncCall
      = (st.isAsyncCall || (isFunctionLike a && ancestorAsync a)) := by
  unfold walkStep
  cases htest : testOf a <;> simp only [htest] <;> split_ifs <;> simp_all

theorem foldl_walkStep_isAsyncCall (ctx : TrackCtx) (l : List Ancestor) :
    ∀ st : WalkState,
      (l.foldl (walkStep ctx) st).isAsyncCall
        = (st.isAsyncCall || l.any (fun a => isFunctionLike a && ancestorAsync a)) := by
  induction l with
  | nil => intro st; simp
  | cons a rest ih =>
      intro st
      simp [List.any_cons, ih, walkStep_isAsyncCall, Bool.or_assoc]

/- ## Claim theorems -/

/-- C7: for every Safety Record produced by the caller-safety scan, if
is-optional-chaining is true then has-null-check is also true: optional
chaining on the call's parent sets both flags at once (lines 173-176) and
the upward walk never clears has-null-check. -/
theorem c7_optional_chaining_implies_null_check (site : CallSite)
    (h : (analyzeCallSite site).isOptionalChaining = true) :
    (analyzeCallSite site).hasNullCheck = true := by
  unfold analyzeCallSite at h ⊢
  simp only at h ⊢
  exact foldl_walkStep_hasNullCheck_mono _ _ _ (by simpa using h)

theorem c7_witness :
    (analyzeCallSite c7site).isOptionalChaining = true ∧
    (analyzeCallSite c7site).hasNullCheck = true :=
  ⟨by decide, c7_optional_chaining_implies_null_check c7site (by decide)⟩

/-- C8 (counterexample): at a call site whose innermost enclosing function
is not async but which sits inside an outer async function, the scanner
still sets is-async-call — the upward walk of lines 209-261 never stops at
the first function-like ancestor, so the claim's "exactly when the first
(innermost) enclosing function-like construct is marked asynchronous" fails
on the code. -/
theorem c8_counterexample :
    ¬ ((analyzeCallSite c8site).isAsyncCall = true ↔
        firstEnclosingAsync c8site.ancestors = some true) := by decide

/-- C8 (amended): the is-async-call flag is set true exactly when some
enclosing function-like construct on the upward walk — not necessarily the
innermost one — is marked asynchronous. -/
theorem c8_is_async_iff_any_enclosing (site : CallSite) :
    (analyzeCallSite site).isAsyncCall = true ↔
      site.ancestors.any (fun a => isFunctionLike a && ancestorAsync a) = true := by
  unfold analyzeCallSite
  simp [foldl_walkStep_isAsyncCall]

/-- C4: a call site with the six flags in their safest configuration
(has-null-check, has-try-catch, is-optional-chaining true; the rest false)
yields exactly 0.00 for both probabilities: the final override of lines
93-97 forces both to zero. -/
theorem c4_full_mitigation_override :
    (calculateSafetyProbabilities
        ⟨true, true, false, false, false, true⟩).unsafeDereferenceLikelihood = 0 ∧
    (calculateSafetyProbabilities
        ⟨true, true, false, false, false, true⟩).unhandledErrorProbability = 0 := by
  constructor <;> norm_num [calculateSafetyProbabilities, jsMax, jsMin, round2, Rat.floor]

/-- C9 (counterexample): two route files with a same-named HTTP-verb
function receive the same API node identifier `GET /users`, because API ids
encode only method and route, not the declaring file — so "two functions
with identical names declared in different files never receive the same
node identifier" fails on the code. -/
theorem c9_counterexample :
    nodeInfoFor "src/routes/users/+server.ts" "GET"
        = Except.ok (some ("GET /users", "api", "GET")) ∧
    nodeInfoFor "src/routes/users/+page.ts" "GET"
        = Except.ok (some ("GET /users", "api", "GET")) ∧
    "src/routes/users/+server.ts" ≠ "src/routes/users/+page.ts" := by decide

/-- C9 (amended): plain Function node identifiers deterministically encode
the declaring file and name (`relPath::name`), so two non-API functions with
the same name in different files never receive the same identifier; API node
identifiers encode only HTTP method and route, so same-named route-handler
functions in different files with equal routes do collide. -/
theorem c9_function_ids_never_collide (r1 r2 n : String) (h : r1 ≠ r2) :
    funcNodeId r1 n ≠ funcNodeId r2 n := by
  intro he
  apply h
  have hd : (funcNodeId r1 n).data = (funcNodeId r2 n).data := by rw [he]
  unfold funcNodeId at hd
  simp only [String.data_append, List.append_assoc] at hd
  have hr := List.append_cancel_right hd
  cases r1; cases r2; exact congrArg String.mk hr

theorem c9_witness :
    "a.js" ≠ "b.js" ∧ funcNodeId "a.js" "foo" ≠ funcNodeId "b.js" "foo" :=
  ⟨by decide, c9_function_ids_never_collide "a.js" "b.js" "foo" (by decide)⟩

theorem mem_insertUnique_of_mem {l : List String} {x : String} (y : String) (h : x ∈ l) :
    x ∈ insertUnique l y := by
  unfold insertUnique; split <;> simp [h]

theorem mem_insertUnique_self (l : List String) (x : String) : x ∈ insertUnique l x := by
  unfold insertUnique; split <;> simp_all

theorem mem_foldl_insertUnique_acc (l : List String) :
    ∀ acc x, x ∈ acc → x ∈ l.foldl insertUnique acc := by
  induction l with
  | nil => intro acc x h; simpa using h
  | cons a rest ih => intro acc x h; exact ih _ _ (mem_insertUnique_of_mem a h)

theorem mem_foldl_insertUnique (l : List String) :
    ∀ acc x, x ∈ l → x ∈ l.foldl insertUnique acc := by
  induction l with
  | nil => intro acc x h; simp at h
  | cons a rest ih =>
      intro acc x h
      rcases List.mem_cons.mp h with rfl | h'
      · exact mem_foldl_insertUnique_acc rest _ _ (mem_insertUnique_self acc x)
      · exact ih _ _ h'

theorem lookup_cons_self {β : Type} (k : String) (v : β) (rest : List (String × β)) :
    List.lookup k ((k, v) :: rest) = some v := by
  simp [List.lookup]

theorem lookup_cons_ne {β : Type} (k k' : String) (v : β) (rest : List (String × β))
    (h : k ≠ k') : List.lookup k ((k', v) :: rest) = List.lookup k rest := by
  simp [List.lookup, beq_eq_false_iff_ne.mpr h]

theorem adjGet_adjAdd_self (adj : Adj) (k v : String) :
    v ∈ (adjGet (adjAdd adj k v) k).getD [] := by
  induction adj with
  | nil =>
      simp only [adjAdd, adjGet, lookup_cons_self, Option.getD_some]
      exact List.mem_singleton_self v
  | cons p rest ih =>
      obtain ⟨k', l⟩ := p
      by_cases hk : k' = k
      · rw [hk]
        have ha : adjAdd ((k, l) :: rest) k v = (k, insertUnique l v) :: rest := by
          simp [adjAdd]
        rw [ha]
        simp only [adjGet, lookup_cons_self, Option.getD_some]
        exact mem_insertUnique_self l v
      · have ha : adjAdd ((k', l) :: rest) k v = (k', l) :: adjAdd rest k v := by
          simp [adjAdd, hk]
        rw [ha]
        simp only [adjGet, lookup_cons_ne k k' l _ (Ne.symm hk)]
        exact ih

theorem adjGet_adjAdd_mono (adj : Adj) (k k' v x : String)
    (h : x ∈ (adjGet adj k).getD []) : x ∈ (adjGet (adjAdd adj k' v) k).getD [] := by
  induction adj with
  | nil => simp [adjGet, List.lookup] at h
  | cons p rest ih =>
      obtain ⟨k0, l⟩ := p
      by_cases h0 : k0 = k'
      · subst h0
        have ha : adjAdd ((k0, l) :: rest) k0 v = (k0, insertUnique l v) :: rest := by
          simp [adjAdd]
        rw [ha]
        by_cases h1 : k = k0
        · subst h1
          simp only [adjGet, lookup_cons_self, Option.getD_some] at h
          simp only [adjGet, lookup_cons_self, Option.getD_some]
          exact mem_insertUnique_of_mem v h
        · simp only [adjGet, lookup_cons_ne k k0 l rest h1] at h
          simp only [adjGet, lookup_cons_ne k k0 _ _ h1]
          exact h
      · have ha : adjAdd ((k0, l) :: rest) k' v = (k0, l) :: adjAdd rest k' v := by
          simp [adjAdd, h0]
        rw [ha]
        by_cases h1 : k = k0
        · subst h1
          simp only [adjGet, lookup_cons_self, Option.getD_some] at h
          simp only [adjGet, lookup_cons_self, Option.getD_some]
          exact h
        · simp only [adjGet, lookup_cons_ne k k0 l rest h1] at h
          simp only [adjGet, lookup_cons_ne k k0 l _ h1]
          exact ih h

theorem buildAdjStep_mono (adj : Adj) (e : Edge) (k x : String)
    (h : x ∈ (adjGet adj k).getD []) : x ∈ (adjGet (buildAdjStep adj e) k).getD [] := by
  unfold buildAdjStep
  split
  · exact h
  · dsimp only
    split
    · exact adjGet_adjAdd_mono _ _ _ _ _ (adjGet_adjAdd_mono _ _ _ _ _ h)
    · exact adjGet_adjAdd_mono _ _ _ _ _ h

theorem foldl_buildAdjStep_mono (edges : List Edge) :
    ∀ adj k x, x ∈ (adjGet adj k).getD [] →
      x ∈ (adjGet (edges.foldl buildAdjStep adj) k).getD [] := by
  induction edges with
  | nil => intro adj k x h; simpa using h
  | cons e rest ih => intro adj k x h; exact ih _ _ _ (buildAdjStep_mono _ _ _ _ h)

theorem buildAdjStep_mem_self (adj : Adj) (e : Edge) (hs : e.type ≠ "structural") :
    e.efrom ∈ (adjGet (buildAdjStep adj e) e.eto).getD [] := by
  unfold buildAdjStep
  rw [if_neg hs]
  dsimp only
  split
  · exact adjGet_adjAdd_mono _ _ _ _ _ (adjGet_adjAdd_self adj e.eto e.efrom)
  · exact adjGet_adjAdd_self adj e.eto e.efrom

theorem buildAdj_mem (edges : List Edge) :
    ∀ adj (e : Edge), e ∈ edges → e.type ≠ "structural" →
      e.efrom ∈ (adjGet (edges.foldl buildAdjStep adj) e.eto).getD [] := by
  induction edges with
  | nil => intro _ e h; simp at h
  | cons e0 rest ih =>
      intro adj e h hs
      rcases List.mem_cons.mp h with rfl | h'
      · exact foldl_buildAdjStep_mono rest _ _ _ (buildAdjStep_mem_self adj e hs)
      · exact ih _ e h' hs

theorem mem_dependentsOf_short (adj : Adj) (id x : String)
    (hshort : shortOf id ≠ id) (h : x ∈ (adjGet adj (shortOf id)).getD []) :
    x ∈ dependentsOf adj id := by
  unfold dependentsOf
  dsimp only
  rw [if_pos hshort]
  exact mem_foldl_insertUnique _ _ _ h

theorem stepDep_impacts_mono (g : Graph) (qe : QEntry) (st : BfsState) (x : String)
    (r : Impact) (h : r ∈ st.impacts) : r ∈ (stepDep g qe st x).impacts := by
  unfold stepDep; split
  · exact h
  · simp [h]

theorem foldl_stepDep_impacts_mono (g : Graph) (qe : QEntry) (deps : List String) :
    ∀ st r, r ∈ st.impacts → r ∈ (deps.foldl (stepDep g qe) st).impacts := by
  induction deps with
  | nil => intro st r h; simpa using h
  | cons d rest ih => intro st r h; exact ih _ _ (stepDep_impacts_mono g qe st d r h)

theorem bfsAux_impacts_mono (g : Graph) (adj : Adj) :
    ∀ (fuel : Nat) (st : BfsState) (r : Impact), r ∈ st.impacts → r ∈ bfsAux g adj fuel st := by
  intro fuel
  induction fuel with
  | zero => intro st r h; exact h
  | succ n ih =>
      intro st r h
      cases hq : st.queue with
      | nil => simpa [bfsAux, hq] using h
      | cons qe rest =>
          have hmem :
              r ∈ ((dependentsOf adj qe.id).foldl (stepDep g qe) { st with queue := rest }).impacts :=
            foldl_stepDep_impacts_mono g qe _ _ r (by simpa using h)
          simpa [bfsAux, hq] using ih _ r hmem

theorem bfsAux_queue_nil (g : Graph) (adj : Adj) (fuel : Nat) (st : BfsState)
    (hq : st.queue = []) : bfsAux g adj fuel st = st.impacts := by
  cases fuel with
  | zero => rfl
  | succ n => unfold bfsAux; rw [hq]

theorem bfsAux_succ_cons (g : Graph) (adj : Adj) (fuel : Nat) (st : BfsState)
    (qe : QEntry) (rest : List QEntry) (hq : st.queue = qe :: rest) :
    bfsAux g adj (fuel + 1) st =
      bfsAux g adj fuel
        ((dependentsOf adj qe.id).foldl (stepDep g qe) { st with queue := rest }) := by
  conv_lhs => unfold bfsAux
  rw [hq]

theorem stepDep_discovers (g : Graph) (qe : QEntry) (st : BfsState) (x : String)
    (hv : x ∉ st.visited) :
    ∃ r ∈ (stepDep g qe st x).impacts, r.id = x ∧ r.depth = qe.depth + 1 := by
  unfold stepDep
  rw [if_neg hv]
  exact ⟨_, List.mem_append_right _ (List.mem_singleton_self _), rfl, rfl⟩

theorem foldl_stepDep_discovers (g : Graph) (qe : QEntry) (deps : List String) :
    ∀ st x, x ∈ deps →
      (∃ r ∈ (deps.foldl (stepDep g qe) st).impacts, r.id = x ∧ r.depth = qe.depth + 1)
        ∨ x ∈ st.visited := by
  induction deps with
  | nil => intro st x h; simp at h
  | cons d rest ih =>
      intro st x h
      simp only [List.foldl_cons]
      rcases List.mem_cons.mp h with rfl | h'
      · by_cases hv : x ∈ st.visited
        · right; exact hv
        · left
          obtain ⟨r, hr, hid, hd⟩ := stepDep_discovers g qe st x hv
          exact ⟨r, foldl_stepDep_impacts_mono g qe rest _ r hr, hid, hd⟩
      · rcases ih (stepDep g qe st d) x h' with hfound | hvis
        · left; exact hfound
        · by_cases hv : x ∈ st.visited
          · right; exact hv
          · left
            have hxd : x = d := by
              unfold stepDep at hvis
              by_cases hdv : d ∈ st.visited
              · rw [if_pos hdv] at hvis; exact absurd hvis hv
              · rw [if_neg hdv] at hvis
                simp only [List.mem_append, List.mem_singleton] at hvis
                rcases hvis with h1 | h1
                · exact absurd h1 hv
                · exact h1
            subst hxd
            obtain ⟨r, hr, hid, hd⟩ := stepDep_discovers g qe st x hv
            exact ⟨r, foldl_stepDep_impacts_mono g qe rest _ r hr, hid, hd⟩

/-- C3: for every graph containing a dependency edge from
`file2.ext::caller` to the bare name `foo` and the target node
`file1.ext::foo`, the traversal discovers `file2.ext::caller` at depth 1:
the edge registers the caller under the bare name, and the first BFS step
probes the target's bare-name form `foo`. -/
theorem c3_dual_key_resolution (g : Graph) (e : Edge) (n : Node)
    (he : e ∈ g.edges) (hf : e.efrom = "file2.ext::caller") (ht : e.eto = "foo")
    (hty : e.type = "dependency")
    (hn : ("file1.ext::foo", n) ∈ g.nodes) :
    ∃ r ∈ calculateBlastRadius g "file1.ext::foo",
      r.id = "file2.ext::caller" ∧ r.depth = 1 := by
  have hadj : "file2.ext::caller" ∈ (adjGet (buildAdj g.edges) "foo").getD [] := by
    have hb := buildAdj_mem g.edges [] e he (by rw [hty]; decide)
    rwa [hf, ht] at hb
  have hshortv : shortOf "file1.ext::foo" = "foo" := by decide
  have hshort : shortOf "file1.ext::foo" ≠ "file1.ext::foo" := by decide
  have hdeps : "file2.ext::caller" ∈ dependentsOf (buildAdj g.edges) "file1.ext::foo" :=
    mem_dependentsOf_short _ _ _ hshort (by rwa [hshortv])
  have hkey : calculateBlastRadius g "file1.ext::foo"
      = bfsAux g (buildAdj g.edges) (g.edges.length + 1)
          ⟨["file1.ext::foo"], [],
           [⟨"file1.ext::foo", 0, ["file1.ext::foo"]⟩]⟩ := rfl
  rw [hkey, bfsAux_succ_cons g _ _ _ ⟨"file1.ext::foo", 0, ["file1.ext::foo"]⟩ [] rfl]
  rcases foldl_stepDep_discovers g ⟨"file1.ext::foo", 0, ["file1.ext::foo"]⟩
      (dependentsOf (buildAdj g.edges) "file1.ext::foo")
      ⟨["file1.ext::foo"], [], []⟩ "file2.ext::caller" hdeps with hfound | hvis
  · obtain ⟨r, hr, hid, hd⟩ := hfound
    exact ⟨r, bfsAux_impacts_mono g _ _ _ r hr, hid, hd⟩
  · simp only [List.mem_singleton] at hvis
    exact absurd hvis (by decide)

theorem c3_witness :
    (⟨"file2.ext::caller", "foo", "dependency", some "call"⟩ : Edge) ∈ c3graph.edges ∧
    ∃ r ∈ calculateBlastRadius c3graph "file1.ext::foo",
      r.id = "file2.ext::caller" ∧ r.depth = 1 :=
  ⟨by decide,
   c3_dual_key_resolution c3graph ⟨"file2.ext::caller", "foo", "dependency", some "call"⟩
     ⟨"function", "Unknown Zone", some "file1.ext", some "foo"⟩
     (by decide) rfl rfl rfl (by decide)⟩

theorem stepDep_inv (g : Graph) (qe : QEntry) (st : BfsState) (x : String) (t : String)
    (h : BfsInv t st) : BfsInv t (stepDep g qe st x) := by
  obtain ⟨hnd, hsub, htv, htni, hdep⟩ := h
  unfold stepDep
  split
  · exact ⟨hnd, hsub, htv, htni, hdep⟩
  · rename_i hx
    have hxids : x ∉ st.impacts.map Impact.id := by
      intro hmem
      obtain ⟨r, hr, hrid⟩ := List.mem_map.mp hmem
      exact hx (hrid ▸ hsub r hr)
    refine ⟨?_, ?_, ?_, ?_, ?_⟩
    · simpa [List.nodup_append, hxids] using hnd
    · intro r hr
      simp only [List.mem_append, List.mem_singleton] at hr
      rcases hr with hr | hr
      · exact List.mem_append_left _ (hsub r hr)
      · subst hr; exact List.mem_append_right _ (List.mem_singleton_self _)
    · exact List.mem_append_left _ htv
    · simp only [List.map_append, List.map_cons, List.map_nil, List.mem_append,
        List.mem_singleton]
      rintro (hmem | hmem)
      · exact htni hmem
      · exact hx (hmem ▸ htv)
    · intro r hr
      simp only [List.mem_append, List.mem_singleton] at hr
      rcases hr with hr | hr
      · exact hdep r hr
      · subst hr; exact Nat.le_add_left 1 qe.depth

theorem foldl_stepDep_inv (g : Graph) (qe : QEntry) (t : String) (deps : List String) :
    ∀ st, BfsInv t st → BfsInv t (deps.foldl (stepDep g qe) st) := by
  induction deps with
  | nil => intro st h; simpa using h
  | cons d rest ih => intro st h; exact ih _ (stepDep_inv g qe st d t h)

theorem bfsAux_inv (g : Graph) (adj : Adj) (t : String) :
    ∀ (fuel : Nat) (st : BfsState), BfsInv t st →
      ((bfsAux g adj fuel st).map Impact.id).Nodup ∧
      t ∉ (bfsAux g adj fuel st).map Impact.id ∧
      ∀ r ∈ bfsAux g adj fuel st, 1 ≤ r.depth := by
  intro fuel
  induction fuel with
  | zero => intro st h; exact ⟨h.1, h.2.2.2.1, h.2.2.2.2⟩
  | succ n ih =>
      intro st h
      cases hq : st.queue with
      | nil =>
          rw [bfsAux_queue_nil g adj _ st hq]
          exact ⟨h.1, h.2.2.2.1, h.2.2.2.2⟩
      | cons qe rest =>
          rw [bfsAux_succ_cons g adj n st qe rest hq]
          exact ih _ (foldl_stepDep_inv g qe t _ _ h)

/-- C5: for every graph and target, the Impact List contains each node id at
most once, never contains the target id, contains no depth-0 record, and
(second conjunct) every record a BFS step appends carries depth = 1 + the
depth of the queue entry being processed. -/
theorem c5_no_duplicate_visitation :
    (∀ (g : Graph) (t : String),
        ((calculateBlastRadius g t).map Impact.id).Nodup ∧
        t ∉ (calculateBlastRadius g t).map Impact.id ∧
        ∀ r ∈ calculateBlastRadius g t, 1 ≤ r.depth) ∧
    (∀ (g : Graph) (qe : QEntry) (st : BfsState) (x : String) (r : Impact),
        r ∈ (stepDep g qe st x).impacts → r ∈ st.impacts ∨ r.depth = qe.depth + 1) := by
  constructor
  · intro g t
    exact bfsAux_inv g _ t _ _
      ⟨by simp, by simp, List.mem_singleton_self t, by simp, by simp⟩
  · intro g qe st x r h
    unfold stepDep at h
    split at h
    · left; exact h
    · simp only [List.mem_append, List.mem_singleton] at h
      rcases h with h | h
      · left; exact h
      · right; rw [h]

theorem c5_witness :
    ((calculateBlastRadius c1graph "a.js::foo").map Impact.id).Nodup ∧
    "a.js::foo" ∉ (calculateBlastRadius c1graph "a.js::foo").map Impact.id ∧
    1 ≤ (⟨"b.js::bar", "function", "Unknown Zone", 1,
          "a.js::foo ➔ b.js::bar", "b.js", "bar"⟩ : Impact).depth ∧
    ((⟨"b.js::bar", "function", "Unknown Zone", 1,
       "a.js::foo ➔ b.js::bar", "b.js", "bar"⟩ : Impact) ∈ ([] : List Impact) ∨
      (⟨"b.js::bar", "function", "Unknown Zone", 1,
        "a.js::foo ➔ b.js::bar", "b.js", "bar"⟩ : Impact).depth = (0 : Nat) + 1) :=
  ⟨(c5_no_duplicate_visitation.1 c1graph "a.js::foo").1,
   (c5_no_duplicate_visitation.1 c1graph "a.js::foo").2.1,
   (c5_no_duplicate_visitation.1 c1graph "a.js::foo").2.2 _ (by decide),
   c5_no_duplicate_visitation.2 c1graph ⟨"a.js::foo", 0, ["a.js::foo"]⟩
     ⟨["a.js::foo"], [], []⟩ "b.js::bar" _ (by decide)⟩

theorem foldl_buildAdjStep_structural (edges : List Edge)
    (h : ∀ e ∈ edges, e.type = "structural") : ∀ adj, edges.foldl buildAdjStep adj = adj := by
  induction edges with
  | nil => intro adj; rfl
  | cons e rest ih =>
      intro adj
      have he : e.type = "structural" := h e (List.mem_cons_self e rest)
      simp only [List.foldl_cons]
      rw [show buildAdjStep adj e = adj from by unfold buildAdjStep; rw [if_pos he]]
      exact ih (fun e' h' => h e' (List.mem_cons_of_mem e h')) adj

theorem dependentsOf_nil (id : String) : dependentsOf [] id = [] := by
  unfold dependentsOf adjGet
  dsimp only
  split <;> rfl

/-- C6: for a graph whose edges are all structural, the blast-radius
traversal of any target returns the empty Impact List: structural edges are
skipped when building the reverse adjacency map, so no dependents exist. -/
theorem c6_structural_edges_excluded (g : Graph)
    (h : ∀ e ∈ g.edges, e.type = "structural") (t : String) :
    calculateBlastRadius g t = [] := by
  unfold calculateBlastRadius
  have hadj : buildAdj g.edges = [] := foldl_buildAdjStep_structural g.edges h []
  rw [hadj]
  rw [bfsAux_succ_cons g [] g.edges.length _ ⟨t, 0, [t]⟩ [] rfl]
  rw [dependentsOf_nil]
  simp only [List.foldl_nil]
  exact bfsAux_queue_nil g [] _ _ rfl

theorem c6_witness :
    (∀ e ∈ c6graph.edges, e.type = "structural") ∧
    calculateBlastRadius c6graph "m.js::f" = [] :=
  ⟨by decide, c6_structural_edges_excluded c6graph (by decide) "m.js::f"⟩

/-- C1: end-to-end scenario — for the two-file project graph, the blast
radius of `a.js::foo` is exactly one impact, `b.js::bar` at depth 1; the
safety scan of the unguarded `foo()` call in `bar` yields assumed-exists
true, unsafe-dereference-likelihood 0.85 (0.70 base + 0.15 assumed-exists)
and unhandled-error-probability 0.60. -/
theorem c1_end_to_end :
    calculateBlastRadius c1graph "a.js::foo" =
      [⟨"b.js::bar", "function", "Unknown Zone", 1,
        "a.js::foo ➔ b.js::bar", "b.js", "bar"⟩] ∧
    analyzeCallSite c1site = ⟨false, false, false, true, false, false⟩ ∧
    (calculateSafetyProbabilities
        (analyzeCallSite c1site)).unsafeDereferenceLikelihood = 0.85 ∧
    (calculateSafetyProbabilities
        (analyzeCallSite c1site)).unhandledErrorProbability = 0.6 := by
  have hflags : analyzeCallSite c1site = ⟨false, false, false, true, false, false⟩ := by decide
  refine ⟨by decide, hflags, ?_, ?_⟩ <;>
    · rw [hflags]
      norm_num [calculateSafetyProbabilities, jsMax, jsMin, round2, Rat.floor]

theorem processDecls_counters (relPath zone : String) (decls : List Decl) :
    ∀ g : GraphModel,
      (processDecls relPath zone decls g).1.metadata.unresolved_files
          = g.metadata.unresolved_files ∧
      (processDecls relPath zone decls g).1.metadata.total_files
          = g.metadata.total_files ∧
      (g.metadata.resolved_imports ≤ g.metadata.total_imports →
        (processDecls relPath zone decls g).1.metadata.resolved_imports
          ≤ (processDecls relPath zone decls g).1.metadata.total_imports) := by
  induction decls with
  | nil => intro g; exact ⟨rfl, rfl, fun h => h⟩
  | cons d rest ih =>
      intro g
      cases d with
      | importLike kind res =>
          cases res with
          | resolvedRel rel =>
              refine ⟨(ih _).1, (ih _).2.1, fun h => (ih _).2.2 ?_⟩
              exact Nat.succ_le_succ h
          | resolvedNoRel =>
              refine ⟨(ih _).1, (ih _).2.1, fun h => (ih _).2.2 ?_⟩
              exact Nat.le_succ_of_le h
          | external spec =>
              refine ⟨(ih _).1, (ih _).2.1, fun h => (ih _).2.2 ?_⟩
              exact Nat.le_succ_of_le h
      | funcDecl name calls =>
          cases name with
          | none => exact ih g
          | some nm =>
              cases hni : nodeInfoFor relPath nm with
              | error e =>
                  refine ⟨?_, ?_, fun h => ?_⟩ <;> simp only [processDecls, hni] <;> exact h
              | ok info =>
                  cases info with
                  | none => simp only [processDecls, hni]; exact ih g
                  | some triple =>
                      obtain ⟨nodeId, ntype, nname⟩ := triple
                      simp only [processDecls, hni]
                      exact ih _

theorem processFileModel_counters (g : GraphModel) (f : FileModel)
    (h1 : g.metadata.resolved_imports ≤ g.metadata.total_imports)
    (h2 : g.metadata.unresolved_files ≤ g.metadata.total_files) :
    (processFileModel g f).metadata.resolved_imports
      ≤ (processFileModel g f).metadata.total_imports ∧
    (processFileModel g f).metadata.unresolved_files
      ≤ (processFileModel g f).metadata.total_files := by
  unfold processFileModel
  cases ho : f.outcome with
  | error e =>
      simp only [ho]
      exact ⟨h1, Nat.succ_le_succ h2⟩
  | ok decls =>
      simp only [ho]
      have hc := processDecls_counters f.relPath f.zone decls
        { g with
          metadata := { g.metadata with total_files := g.metadata.total_files + 1 }
          nodes := nodesInsert g.nodes f.relPath ⟨"module", f.zone, none, none⟩ }
      split
      · rename_i g' heq
        have h1' := congrArg (fun p => p.1.metadata.resolved_imports) heq
        have h2' := congrArg (fun p => p.1.metadata.total_imports) heq
        have h3' := congrArg (fun p => p.1.metadata.unresolved_files) heq
        have h4' := congrArg (fun p => p.1.metadata.total_files) heq
        simp only at h1' h2' h3' h4'
        constructor
        · rw [← h1', ← h2']; exact hc.2.2 h1
        · rw [← h3', ← h4']
          rw [hc.1, hc.2.1]
          exact Nat.le_succ_of_le h2
      · rename_i g' heq
        have h1' := congrArg (fun p => p.1.metadata.resolved_imports) heq
        have h2' := congrArg (fun p => p.1.metadata.total_imports) heq
        have h3' := congrArg (fun p => p.1.metadata.unresolved_files) heq
        have h4' := congrArg (fun p => p.1.metadata.total_files) heq
        simp only at h1' h2' h3' h4'
        constructor
        · rw [← h1', ← h2']; exact hc.2.2 h1
        · simp only [← h3', ← h4', hc.1, hc.2.1]
          exact Nat.succ_le_succ h2

/-- C10: metadata counter consistency — for every project and mode, the
built graph satisfies resolved_imports ≤ total_imports and
unresolved_files ≤ total_files: the resolved counter is bumped only inside
a branch that bumped the attempted counter, and the unresolved-file counter
at most once per processed file. -/
theorem c10_metadata_counters (files : List FileModel) :
    (parseToGraphModel files).metadata.resolved_imports
      ≤ (parseToGraphModel files).metadata.total_imports ∧
    (parseToGraphModel files).metadata.unresolved_files
      ≤ (parseToGraphModel files).metadata.total_files := by
  suffices h : ∀ g : GraphModel,
      g.metadata.resolved_imports ≤ g.metadata.total_imports →
      g.metadata.unresolved_files ≤ g.metadata.total_files →
      (files.foldl processFileModel g).metadata.resolved_imports
        ≤ (files.foldl processFileModel g).metadata.total_imports ∧
      (files.foldl processFileModel g).metadata.unresolved_files
        ≤ (files.foldl processFileModel g).metadata.total_files by
    exact h emptyGraphModel (Nat.le_refl 0) (Nat.le_refl 0)
  induction files with
  | nil => intro g h1 h2; exact ⟨h1, h2⟩
  | cons f rest ih =>
      intro g h1 h2
      have hf := processFileModel_counters g f h1 h2
      exact ih (processFileModel g f) hf.1 hf.2

theorem hasSepChar_funcNodeId (r n : String) : hasSepChar (funcNodeId r n) := by
  left
  unfold funcNodeId
  rw [String.data_append, String.data_append]
  exact List.mem_append_left _ (List.mem_append_right _ (by decide))

theorem hasSepChar_apiId (v r : String) : hasSepChar (v ++ " " ++ r) := by
  right
  rw [String.data_append, String.data_append]
  exact List.mem_append_left _ (List.mem_append_right _ (by decide))

theorem nodeInfoFor_key (relPath nm id t n : String)
    (h : nodeInfoFor relPath nm = Except.ok (some (id, t, n))) :
    hasSepChar id ∧ t ≠ "module" := by
  unfold nodeInfoFor at h
  cases hr : getRouteInfo relPath with
  | error e =>
      rw [hr] at h
      simp only [Bind.bind, Except.bind] at h
      simp at h
  | ok route =>
      rw [hr] at h
      simp only [Bind.bind, Except.bind] at h
      cases route with
      | some r =>
          dsimp only at h
          by_cases hc : ((nm != "") && httpVerbs.contains (jsToUpper nm)) = true
          · rw [if_pos hc] at h
            simp only [pure, Except.pure, Except.ok.injEq, Option.some.injEq,
              Prod.mk.injEq] at h
            obtain ⟨hid, ht, hn2⟩ := h
            subst hid; subst ht
            exact ⟨hasSepChar_apiId _ _, by decide⟩
          · rw [if_neg hc] at h
            by_cases hb : (nm != "") = true
            · rw [if_pos hb] at h
              simp only [pure, Except.pure, Except.ok.injEq, Option.some.injEq,
                Prod.mk.injEq] at h
              obtain ⟨hid, ht, hn2⟩ := h
              subst hid; subst ht
              exact ⟨hasSepChar_funcNodeId _ _, by decide⟩
            · rw [if_neg hb] at h
              simp only [pure, Except.pure, Except.ok.injEq] at h
              simp at h
      | none =>
          dsimp only at h
          by_cases hb : (nm != "") = true
          · rw [if_pos hb] at h
            simp only [pure, Except.pure, Except.ok.injEq, Option.some.injEq,
              Prod.mk.injEq] at h
            obtain ⟨hid, ht, hn2⟩ := h
            subst hid; subst ht
            exact ⟨hasSepChar_funcNodeId _ _, by decide⟩
          · rw [if_neg hb] at h
            simp only [pure, Except.pure, Except.ok.injEq] at h
            simp at h

theorem moduleKeys_cons (k : String) (n : Node) (l : List (String × Node)) :
    moduleKeys ((k, n) :: l)
      = if n.type = "module" then k :: moduleKeys l else moduleKeys l := by
  by_cases hm : n.type = "module" <;> simp [moduleKeys, List.filter_cons, hm]

theorem moduleKeys_append (l1 l2 : List (String × Node)) :
    moduleKeys (l1 ++ l2) = moduleKeys l1 ++ moduleKeys l2 := by
  simp [moduleKeys, List.filter_append]

theorem mem_moduleKeys_of_module (nodes : List (String × Node)) (p : String × Node)
    (hp : p ∈ nodes) (hm : p.2.type = "module") : p.1 ∈ moduleKeys nodes := by
  unfold moduleKeys
  exact List.mem_map_of_mem _ (List.mem_filter.mpr ⟨hp, by simp [hm]⟩)

theorem mem_nodesInsert (nodes : List (String × Node)) (k : String) (n : Node) :
    ∀ p ∈ nodesInsert nodes k n, p ∈ nodes ∨ p = (k, n) := by
  induction nodes with
  | nil =>
      intro p hp
      simp only [nodesInsert, List.mem_singleton] at hp
      right; exact hp
  | cons q rest ih =>
      obtain ⟨k0, n0⟩ := q
      intro p hp
      by_cases hk : k0 = k
      · have ha : nodesInsert ((k0, n0) :: rest) k n = (k, n) :: rest := by
          simp [nodesInsert, hk]
        rw [ha] at hp
        rcases List.mem_cons.mp hp with rfl | hp'
        · right; rfl
        · left; exact List.mem_cons_of_mem _ hp'
      · have ha : nodesInsert ((k0, n0) :: rest) k n = (k0, n0) :: nodesInsert rest k n := by
          simp [nodesInsert, hk]
        rw [ha] at hp
        rcases List.mem_cons.mp hp with rfl | hp'
        · left; exact List.mem_cons_self _ _
        · rcases ih p hp' with h | h
          · left; exact List.mem_cons_of_mem _ h
          · right; exact h

theorem nodesWellKeyed_insert (nodes : List (String × Node)) (k : String) (n : Node)
    (hw : nodesWellKeyed nodes) (hn : n.type = "module" ↔ ¬ hasSepChar k) :
    nodesWellKeyed (nodesInsert nodes k n) := by
  intro p hp
  rcases mem_nodesInsert nodes k n p hp with h | h
  · exact hw p h
  · rw [h]; exact hn

theorem moduleKeys_nodesInsert_sep (nodes : List (String × Node)) (k : String) (n : Node)
    (hk : hasSepChar k) (hn : ¬ n.type = "module") (hw : nodesWellKeyed nodes) :
    moduleKeys (nodesInsert nodes k n) = moduleKeys nodes := by
  induction nodes with
  | nil =>
      show moduleKeys [(k, n)] = moduleKeys []
      simp [moduleKeys_cons, hn, moduleKeys]
  | cons q rest ih =>
      obtain ⟨k0, n0⟩ := q
      by_cases hk0 : k0 = k
      · have hsep0 : hasSepChar k0 := by rw [hk0]; exact hk
        have hn0 : ¬ n0.type = "module" := by
          intro hm
          exact ((hw (k0, n0) (List.mem_cons_self _ _)).mp hm) hsep0
        have ha : nodesInsert ((k0, n0) :: rest) k n = (k, n) :: rest := by
          simp [nodesInsert, hk0]
        rw [ha, moduleKeys_cons, moduleKeys_cons, if_neg hn, if_neg hn0]
      · have ha : nodesInsert ((k0, n0) :: rest) k n = (k0, n0) :: nodesInsert rest k n := by
          simp [nodesInsert, hk0]
        have hw' : nodesWellKeyed rest := fun p hp => hw p (List.mem_cons_of_mem _ hp)
        rw [ha, moduleKeys_cons, moduleKeys_cons, ih hw']

theorem nodesInsert_fresh (nodes : List (String × Node)) (k : String) (n : Node)
    (h : ∀ p ∈ nodes, p.1 ≠ k) : nodesInsert nodes k n = nodes ++ [(k, n)] := by
  induction nodes with
  | nil => rfl
  | cons q rest ih =>
      obtain ⟨k0, n0⟩ := q
      have hk0 : k0 ≠ k := h (k0, n0) (List.mem_cons_self _ _)
      have ha : nodesInsert ((k0, n0) :: rest) k n = (k0, n0) :: nodesInsert rest k n := by
        simp [nodesInsert, hk0]
      rw [ha, ih (fun p hp => h p (List.mem_cons_of_mem _ hp))]
      rfl

theorem processDecls_moduleKeys (relPath zone : String) (decls : List Decl) :
    ∀ g : GraphModel, nodesWellKeyed g.nodes →
      moduleKeys (processDecls relPath zone decls g).1.nodes = moduleKeys g.nodes ∧
      nodesWellKeyed (processDecls relPath zone decls g).1.nodes := by
  induction decls with
  | nil => intro g hw; exact ⟨rfl, hw⟩
  | cons d rest ih =>
      intro g hw
      cases d with
      | importLike kind res =>
          cases res with
          | resolvedRel rel => exact ih _ hw
          | resolvedNoRel => exact ih _ hw
          | external spec => exact ih _ hw
      | funcDecl name calls =>
          cases name with
          | none => exact ih _ hw
          | some nm =>
              cases hni : nodeInfoFor relPath nm with
              | error e =>
                  refine ⟨by simp [processDecls, hni], ?_⟩
                  simp only [processDecls, hni]
                  exact hw
              | ok info =>
                  cases info with
                  | none => simp only [processDecls, hni]; exact ih _ hw
                  | some triple =>
                      obtain ⟨nodeId, ntype, nname⟩ := triple
                      simp only [processDecls, hni]
                      have hkey := nodeInfoFor_key relPath nm nodeId ntype nname hni
                      have hw2 : nodesWellKeyed
                          (nodesInsert g.nodes nodeId
                            ⟨ntype, zone, some relPath, some nname⟩) :=
                        nodesWellKeyed_insert _ _ _ hw
                          ⟨fun hm => absurd hm hkey.2, fun hns => absurd hkey.1 hns⟩
                      have hmk : moduleKeys
                          (nodesInsert g.nodes nodeId
                            ⟨ntype, zone, some relPath, some nname⟩)
                          = moduleKeys g.nodes :=
                        moduleKeys_nodesInsert_sep _ _ _ hkey.1 hkey.2 hw
                      exact ⟨(ih _ hw2).1.trans hmk, (ih _ hw2).2⟩

theorem processDecls_throws (relPath zone : String) (decls : List Decl) :
    ∀ g : GraphModel, (processDecls relPath zone decls g).2 = declsThrow relPath decls := by
  induction decls with
  | nil => intro g; rfl
  | cons d rest ih =>
      intro g
      cases d with
      | importLike kind res =>
          cases res with
          | resolvedRel rel => exact ih _
          | resolvedNoRel => exact ih _
          | external spec => exact ih _
      | funcDecl name calls =>
          cases name with
          | none => exact ih _
          | some nm =>
              cases hni : nodeInfoFor relPath nm with
              | error e => simp only [processDecls, declsThrow, hni]
              | ok info =>
                  cases info with
                  | none => simp only [processDecls, declsThrow, hni]; exact ih _
                  | some triple =>
                      obtain ⟨nodeId, ntype, nname⟩ := triple
                      simp only [processDecls, declsThrow, hni]
                      exact ih _

theorem processFileModel_moduleKeys (g : GraphModel) (f : FileModel)
    (hw : nodesWellKeyed g.nodes) (hsep : ¬ hasSepChar f.relPath)
    (hfresh : f.relPath ∉ moduleKeys g.nodes) :
    moduleKeys (processFileModel g f).nodes = moduleKeys g.nodes ++ [f.relPath] ∧
    nodesWellKeyed (processFileModel g f).nodes ∧
    (processFileModel g f).metadata.unresolved_files
      = g.metadata.unresolved_files + (if fileThrows f = true then 1 else 0) ∧
    (processFileModel g f).metadata.total_files = g.metadata.total_files + 1 := by
  have hfresh' : ∀ p ∈ g.nodes, p.1 ≠ f.relPath := by
    intro p hp heq
    by_cases hm : p.2.type = "module"
    · exact hfresh (heq ▸ mem_moduleKeys_of_module g.nodes p hp hm)
    · have hs : hasSepChar p.1 := by
        by_contra hns
        exact hm ((hw p hp).mpr hns)
      exact hsep (heq ▸ hs)
  have hins : nodesInsert g.nodes f.relPath ⟨"module", f.zone, none, none⟩
      = g.nodes ++ [(f.relPath, ⟨"module", f.zone, none, none⟩)] :=
    nodesInsert_fresh _ _ _ hfresh'
  have hmkins : moduleKeys (nodesInsert g.nodes f.relPath ⟨"module", f.zone, none, none⟩)
      = moduleKeys g.nodes ++ [f.relPath] := by
    rw [hins, moduleKeys_append]
    simp [moduleKeys_cons, moduleKeys]
  have hwins : nodesWellKeyed
      (nodesInsert g.nodes f.relPath ⟨"module", f.zone, none, none⟩) :=
    nodesWellKeyed_insert _ _ _ hw (by simpa using hsep)
  unfold processFileModel
  cases ho : f.outcome with
  | error e =>
      simp only [ho]
      have hft : fileThrows f = true := by simp [fileThrows, ho]
      refine ⟨hmkins, hwins, ?_, ?_⟩ <;> simp [hft]
  | ok decls =>
      simp only [ho]
      have hft : fileThrows f = declsThrow f.relPath decls := by simp [fileThrows, ho]
      have hd := processDecls_moduleKeys f.relPath f.zone decls
        { g with
          metadata := { g.metadata with total_files := g.metadata.total_files + 1 }
          nodes := nodesInsert g.nodes f.relPath ⟨"module", f.zone, none, none⟩ }
        hwins
      have hthrow := processDecls_throws f.relPath f.zone decls
        { g with
          metadata := { g.metadata with total_files := g.metadata.total_files + 1 }
          nodes := nodesInsert g.nodes f.relPath ⟨"module", f.zone, none, none⟩ }
      have hmeta := processDecls_counters f.relPath f.zone decls
        { g with
          metadata := { g.metadata with total_files := g.metadata.total_files + 1 }
          nodes := nodesInsert g.nodes f.relPath ⟨"module", f.zone, none, none⟩ }
      split
      · rename_i g' heq
        have hg' := congrArg Prod.fst heq
        have hb := congrArg Prod.snd heq
        simp only at hg' hb
        have hftf : fileThrows f = false := by rw [hft, ← hthrow, hb]
        refine ⟨?_, ?_, ?_, ?_⟩
        · rw [← hg', hd.1]; exact hmkins
        · rw [← hg']; exact hd.2
        · rw [← hg', hmeta.1]; simp [hftf]
        · rw [← hg', hmeta.2.1]
      · rename_i g' heq
        have hg' := congrArg Prod.fst heq
        have hb := congrArg Prod.snd heq
        simp only at hg' hb
        have hftf : fileThrows f = true := by rw [hft, ← hthrow, hb]
        refine ⟨?_, ?_, ?_, ?_⟩
        · rw [← hg', hd.1]; exact hmkins
        · rw [← hg']; exact hd.2
        · simp only [← hg', hmeta.1]; simp [hftf]
        · simp only [← hg', hmeta.2.1]

theorem parseToGraphModel_fold (files : List FileModel) :
    ∀ (g : GraphModel) (done : List String),
      nodesWellKeyed g.nodes → moduleKeys g.nodes = done →
      (∀ f ∈ files, ¬ hasSepChar f.relPath) →
      (∀ f ∈ files, f.relPath ∉ done) →
      (files.map FileModel.relPath).Nodup →
      moduleKeys (files.foldl processFileModel g).nodes
        = done ++ files.map FileModel.relPath ∧
      (files.foldl processFileModel g).metadata.unresolved_files
        = g.metadata.unresolved_files + files.countP (fun f => fileThrows f) := by
  induction files with
  | nil =>
      intro g done hw hmk hsep hfresh hnd
      simp [hmk]
  | cons f rest ih =>
      intro g done hw hmk hsep hfresh hnd
      have hsf : ¬ hasSepChar f.relPath := hsep f (List.mem_cons_self _ _)
      have hff : f.relPath ∉ moduleKeys g.nodes := by
        rw [hmk]; exact hfresh f (List.mem_cons_self _ _)
      have hstep := processFileModel_moduleKeys g f hw hsf hff
      have hnd' : (rest.map FileModel.relPath).Nodup := (List.nodup_cons.mp hnd).2
      have hfnotin : f.relPath ∉ rest.map FileModel.relPath := (List.nodup_cons.mp hnd).1
      have hrest := ih (processFileModel g f) (done ++ [f.relPath]) hstep.2.1
        (by rw [hstep.1, hmk])
        (fun f' hf' => hsep f' (List.mem_cons_of_mem _ hf'))
        (by
          intro f' hf'
          simp only [List.mem_append, List.mem_singleton]
          rintro (hin | hin)
          · exact hfresh f' (List.mem_cons_of_mem _ hf') hin
          · exact hfnotin (hin ▸ List.mem_map_of_mem FileModel.relPath hf'))
        hnd'
      constructor
      · rw [List.foldl_cons, hrest.1]
        simp
      · rw [List.foldl_cons, hrest.2, hstep.2.2.1, List.countP_cons]
        omega

/-- C2 (counterexample): a project with one syntactically invalid file and
nine valid files yields ten Module nodes, not nine — the invalid file's
Module node is registered before the parse attempt (line 200 precedes the
`try`) — while the unresolved-file count is 1 as claimed. -/
theorem c2_counterexample :
    countModules (parseToGraphModel c2files).nodes = 10 ∧
    ¬ countModules (parseToGraphModel c2files).nodes = 9 ∧
    (parseToGraphModel c2files).metadata.unresolved_files = 1 := by decide

/-- C2 (amended): for every project of ten files with pairwise distinct,
separator-free relative paths of which exactly one throws during
processing, the builder completes and produces ten Module nodes — one per
file, the failing file included, since its Module node is registered before
parsing — and an unresolved-file count of 1; the failing file's function
nodes and edges are skipped. -/
theorem c2_parse_failure_isolation (files : List FileModel)
    (hlen : files.length = 10)
    (hsep : ∀ f ∈ files, ¬ hasSepChar f.relPath)
    (hnd : (files.map FileModel.relPath).Nodup)
    (hone : files.countP (fun f => fileThrows f) = 1) :
    countModules (parseToGraphModel files).nodes = 10 ∧
    (parseToGraphModel files).metadata.unresolved_files = 1 := by
  have hfold := parseToGraphModel_fold files emptyGraphModel []
    (by intro p hp; simp [emptyGraphModel] at hp)
    (by simp [emptyGraphModel, moduleKeys])
    hsep (by simp) hnd
  constructor
  · have hcm : countModules (parseToGraphModel files).nodes
        = (moduleKeys (parseToGraphModel files).nodes).length := by
      simp [countModules, moduleKeys]
    rw [hcm]
    have : parseToGraphModel files = files.foldl processFileModel emptyGraphModel := rfl
    rw [this, hfold.1]
    simp [hlen]
  · have : parseToGraphModel files = files.foldl processFileModel emptyGraphModel := rfl
    rw [this, hfold.2, hone]
    rfl

theorem c8_witness :
    (analyzeCallSite c8site).isAsyncCall = true ↔
      c8site.ancestors.any (fun a => isFunctionLike a && ancestorAsync a) = true :=
  c8_is_async_iff_any_enclosing c8site

theorem c10_witness :
    (parseToGraphModel c2files).metadata.resolved_imports
      ≤ (parseToGraphModel c2files).metadata.total_imports ∧
    (parseToGraphModel c2files).metadata.unresolved_files
      ≤ (parseToGraphModel c2files).metadata.total_files :=
  c10_metadata_counters c2files

theorem c2_witness :
    c2files.length = 10 ∧
    (∀ f ∈ c2files, ¬ hasSepChar f.relPath) ∧
    (c2files.map FileModel.relPath).Nodup ∧
    c2files.countP (fun f => fileThrows f) = 1 ∧
    countModules (parseToGraphModel c2files).nodes = 10 ∧
    (parseToGraphModel c2files).metadata.unresolved_files = 1 :=
  ⟨by decide, by decide, by decide, by decide,
   (c2_parse_failure_isolation c2files (by decide) (by decide) (by decide) (by decide)).1,
   (c2_parse_failure_isolation c2files (by decide) (by decide) (by decide) (by decide)).2⟩

end ImpactRadar
